import Mathlib

/-!
Verification of the auto-ingress operator (src/auto-ingress-operator.py).

The single handler `manage_ingress` reads a service's `auto-ingress` annotation
and converges the existence and content of a deterministic Ingress object
`auto-ingress-<name>-http` in the service's namespace.  The embedding below is
a direct transcription of that handler: Python dict lookups become association
list lookups, Python truthiness of optional strings/numbers is made explicit,
the Kubernetes client becomes a `StoreOracle` of response functions, and a run
returns the outcome (completed or raised ApiException status), the ordered
trace of store calls, and the number of warnings logged.
-/

namespace AutoIngress

/-- The constant `AUTO_INGRESS_ANNOTATION = 'auto-ingress'` from the source. -/
def autoIngressKey : String := "auto-ingress"

/-- One entry of `spec['ports']`: an optional `name` and an optional `port` number. -/
structure ServicePort where
  name : Option String
  port : Option Nat
deriving DecidableEq

/-- `V1ServiceBackendPort`: an optional `name` and an optional `number`. -/
structure ServiceBackendPort where
  name : Option String
  number : Option Nat
deriving DecidableEq

/-- `V1OwnerReference` as populated by the source. -/
structure OwnerReference where
  apiVersion : Option String
  kind : String
  name : String
  uid : Option String
  controller : Bool
  blockOwnerDeletion : Bool
deriving DecidableEq

/-- `V1IngressServiceBackend`. -/
structure IngressServiceBackend where
  name : String
  port : ServiceBackendPort
deriving DecidableEq

/-- `V1IngressBackend`. -/
structure IngressBackend where
  service : IngressServiceBackend
deriving DecidableEq

/-- `V1HTTPIngressPath`. -/
structure HTTPIngressPath where
  path : String
  pathType : String
  backend : IngressBackend
deriving DecidableEq

/-- `V1HTTPIngressRuleValue`. -/
structure HTTPIngressRuleValue where
  paths : List HTTPIngressPath
deriving DecidableEq

/-- `V1IngressRule`. -/
structure IngressRule where
  http : HTTPIngressRuleValue
deriving DecidableEq

/-- `V1ObjectMeta` as populated by the source (name, annotations, owner references). -/
structure ObjectMeta where
  name : String
  annotations : List (String × String)
  ownerReferences : List OwnerReference
deriving DecidableEq

/-- `V1IngressSpec`. -/
structure IngressSpec where
  rules : List IngressRule
deriving DecidableEq

/-- `V1Ingress`. -/
structure Ingress where
  apiVersion : String
  kind : String
  metadata : ObjectMeta
  spec : IngressSpec
deriving DecidableEq

/-- The prior body `old` supplied on update events; the handler only reads
`old['metadata']['annotations']`. -/
structure OldBody where
  annotations : List (String × String)
deriving DecidableEq

/-- The handler's inputs for one event: namespace, name, current annotations,
`spec['ports']`, `meta['uid']`, `body['apiVersion']`, and the optional prior body. -/
structure Event where
  ns : String
  name : String
  annotations : List (String × String)
  ports : Option (List ServicePort)
  uid : Option String
  apiVersion : Option String
  old : Option OldBody
deriving DecidableEq

/-- Python truthiness of an optional string: `if s:` holds iff the value is
present and non-empty. -/
def truthyStr : Option String → Bool
  | none => false
  | some s => if s = "" then false else true

/-- Python truthiness of an optional number: `if n:` holds iff the value is
present and non-zero. -/
def truthyNat : Option Nat → Bool
  | none => false
  | some n => if n = 0 then false else true

/-- `annotations.get(AUTO_INGRESS_ANNOTATION)` on the current body. -/
def currentAnnot (ev : Event) : Option String :=
  List.lookup autoIngressKey ev.annotations

/-- `old.get('metadata', {}).get('annotations', {}).get(AUTO_INGRESS_ANNOTATION)`,
guarded by `if old:`. -/
def priorAnnot (ev : Event) : Option String :=
  match ev.old with
  | some old => List.lookup autoIngressKey old.annotations
  | none => none

/-- `ingress_name = f"auto-ingress-\x7bname\x7d-http"`. -/
def ingressName (name : String) : String :=
  "auto-ingress-" ++ name ++ "-http"

/-- `backend_port = V1ServiceBackendPort(name=...) if service_port_name else
V1ServiceBackendPort(number=...)`. -/
def backendPort (service_port_name : Option String) (service_port_number : Option Nat) :
    ServiceBackendPort :=
  if truthyStr service_port_name then
    { name := service_port_name, number := none }
  else
    { name := none, number := service_port_number }

/-- The `ingress_def = V1Ingress(...)` literal from the source. -/
def ingressDef (name : String) (auto_ingress_path : String)
    (service_api_version : Option String) (service_uid : Option String)
    (backend_port : ServiceBackendPort) : Ingress :=
  { apiVersion := "networking.k8s.io/v1"
    kind := "Ingress"
    metadata :=
      { name := ingressName name
        annotations :=
          [("traefik.ingress.kubernetes.io/router.entrypoints", "web")]
        ownerReferences :=
          [{ apiVersion := service_api_version
             kind := "Service"
             name := name
             uid := service_uid
             controller := true
             blockOwnerDeletion := true }] }
    spec :=
      { rules :=
          [{ http :=
              { paths :=
                  [{ path := auto_ingress_path
                     pathType := "Prefix"
                     backend :=
                       { service := { name := name, port := backend_port } } }] } }] } }

/-- A store call issued by the reconciler, in the order issued. -/
inductive StoreCall where
  | get (ns nm : String)
  | create (ns : String) (body : Ingress)
  | replace (ns nm : String) (body : Ingress)
  | delete (ns nm : String)
deriving DecidableEq

/-- How one handler invocation ends: normal return, or an `ApiException` with
the given status re-raised out of the handler. -/
inductive Outcome where
  | completed
  | raised (status : Nat)
deriving DecidableEq

/-- Result of one handler invocation: the outcome, the ordered trace of store
calls issued, and the number of `logger.warning` calls. -/
structure RunResult where
  outcome : Outcome
  calls : List StoreCall
  warnings : Nat
deriving DecidableEq

/-- The Kubernetes NetworkingV1Api client, as response functions.  `Except.error s`
models an `ApiException` with status `s`. -/
structure StoreOracle where
  get : String → String → Except Nat Ingress
  create : String → Ingress → Except Nat Ingress
  replace : String → String → Ingress → Except Nat Ingress
  delete : String → String → Except Nat Unit

/-- The upsert `try` block: read the existing Ingress by name (a 404 is ignored,
any other lookup failure is re-raised); then replace when found, create when not. -/
def upsertIngress (api : StoreOracle) (ns ingress_name : String)
    (ingress_def : Ingress) : RunResult :=
  match api.get ns ingress_name with
  | .ok _existing =>
    match api.replace ns ingress_name ingress_def with
    | .ok _ =>
      { outcome := .completed
        calls := [.get ns ingress_name, .replace ns ingress_name ingress_def]
        warnings := 0 }
    | .error st =>
      { outcome := .raised st
        calls := [.get ns ingress_name, .replace ns ingress_name ingress_def]
        warnings := 0 }
  | .error st =>
    if st = 404 then
      match api.create ns ingress_def with
      | .ok _ =>
        { outcome := .completed
          calls := [.get ns ingress_name, .create ns ingress_def]
          warnings := 0 }
      | .error st2 =>
        { outcome := .raised st2
          calls := [.get ns ingress_name, .create ns ingress_def]
          warnings := 0 }
    else
      { outcome := .raised st, calls := [.get ns ingress_name], warnings := 0 }

/-- The delete `try` block: `delete_namespaced_ingress`; a 404 is logged as
already deleted, any other failure is re-raised. -/
def deleteIngress (api : StoreOracle) (ns ingress_name : String) : RunResult :=
  match api.delete ns ingress_name with
  | .ok _ =>
    { outcome := .completed, calls := [.delete ns ingress_name], warnings := 0 }
  | .error st =>
    if st = 404 then
      { outcome := .completed, calls := [.delete ns ingress_name], warnings := 0 }
    else
      { outcome := .raised st, calls := [.delete ns ingress_name], warnings := 0 }

/-- The `else` branch (annotation not truthy): delete the Ingress when the prior
annotation value was truthy, otherwise do nothing. -/
def absentBranch (api : StoreOracle) (ns ingress_name : String)
    (old_auto_ingress_path : Option String) : RunResult :=
  if truthyStr old_auto_ingress_path then
    deleteIngress api ns ingress_name
  else
    { outcome := .completed, calls := [], warnings := 0 }

/-- The `if auto_ingress_path:` branch, given the truthy path value: validate
ports (warn and return on no ports, or on a first port with neither a truthy
name nor a truthy number), build `ingress_def` from the first port, and upsert. -/
def presentBranch (api : StoreOracle) (ev : Event) (auto_ingress_path : String) :
    RunResult :=
  match ev.ports with
  | none => { outcome := .completed, calls := [], warnings := 1 }
  | some [] => { outcome := .completed, calls := [], warnings := 1 }
  | some (port_info :: _) =>
    if !truthyStr port_info.name && !truthyNat port_info.port then
      { outcome := .completed, calls := [], warnings := 1 }
    else
      upsertIngress api ev.ns (ingressName ev.name)
        (ingressDef ev.name auto_ingress_path ev.apiVersion ev.uid
          (backendPort port_info.name port_info.port))

/-- The handler `manage_ingress`: dispatch on the Python truthiness of the
current annotation value. -/
def manage_ingress (api : StoreOracle) (ev : Event) : RunResult :=
  match currentAnnot ev with
  | some p =>
    if p = "" then absentBranch api ev.ns (ingressName ev.name) (priorAnnot ev)
    else presentBranch api ev p
  | none => absentBranch api ev.ns (ingressName ev.name) (priorAnnot ev)

/-- The cluster's view of all Ingress objects, keyed by (namespace, name). -/
def Store : Type := List ((String × String) × Ingress)

/-- Read an Ingress by key. -/
def getKey (k : String × String) : Store → Option Ingress
  | [] => none
  | e :: rest => if e.1 = k then some e.2 else getKey k rest

/-- Remove every binding of a key. -/
def eraseKey (k : String × String) : Store → Store
  | [] => []
  | e :: rest => if e.1 = k then eraseKey k rest else e :: eraseKey k rest

/-- Bind a key to a body, overwriting any previous binding. -/
def insertKey (k : String × String) (v : Ingress) (st : Store) : Store :=
  (k, v) :: eraseKey k st

/-- The faithful store client over a concrete store: `get` returns the object or
404; `create` and `replace` succeed; `delete` succeeds when present, else 404. -/
def storeOracle (st : Store) : StoreOracle where
  get := fun ns nm =>
    match getKey (ns, nm) st with
    | some i => .ok i
    | none => .error 404
  create := fun _ body => .ok body
  replace := fun _ _ body => .ok body
  delete := fun ns nm =>
    match getKey (ns, nm) st with
    | some _ => .ok ()
    | none => .error 404

/-- Effect of one store call on the store. -/
def applyCall (st : Store) : StoreCall → Store
  | .get _ _ => st
  | .create ns body => insertKey (ns, body.metadata.name) body st
  | .replace ns nm body => insertKey (ns, nm) body st
  | .delete ns nm => eraseKey (ns, nm) st

/-- One reconciliation of an event against a concrete store: run the handler
against the store's client and apply the issued calls. -/
def reconcile (ev : Event) (st : Store) : RunResult × Store :=
  let r := manage_ingress (storeOracle st) ev
  (r, r.calls.foldl applyCall st)

/-- Iterated reconciliation of the same event. -/
def reconcileN (ev : Event) : Nat → Store → Store
  | 0, st => st
  | n + 1, st => reconcileN ev n (reconcile ev st).2

/-- The deterministic key of the dependent Ingress for an event. -/
def dependentKey (ev : Event) : String × String :=
  (ev.ns, ingressName ev.name)

/-- Whether the dependent Ingress exists in a store. -/
def existsDependent (st : Store) (ev : Event) : Bool :=
  (getKey (dependentKey ev) st).isSome

/-- The current annotation value is present and non-empty. -/
def annotPresent (ev : Event) : Bool :=
  truthyStr (currentAnnot ev)

/-- The prior annotation value was present and non-empty. -/
def priorPresent (ev : Event) : Bool :=
  truthyStr (priorAnnot ev)

/-- The ports pass the handler's validation: a first entry exists and has a
truthy name or a truthy number. -/
def portsValid (ev : Event) : Bool :=
  match ev.ports with
  | some (p :: _) => truthyStr p.name || truthyNat p.port
  | _ => false

/-- The branches of the decision table in which the handler issues no store
call at all: annotation present with invalid ports, or annotation absent with
prior annotation also absent. -/
def noActionBranch (ev : Event) : Bool :=
  (annotPresent ev && !portsValid ev) || (!annotPresent ev && !priorPresent ev)

/-- The Ingress body the handler writes in the upsert path: path from the
current annotation, backend from the first port. -/
def desiredIngress (ev : Event) : Ingress :=
  ingressDef ev.name ((currentAnnot ev).getD "") ev.apiVersion ev.uid
    (match ev.ports with
     | some (p :: _) => backendPort p.name p.port
     | _ => backendPort none none)

/-- A store call that mutates the store (create, replace or delete). -/
def isMutation : StoreCall → Bool
  | .get _ _ => false
  | .create _ _ => true
  | .replace _ _ _ => true
  | .delete _ _ => true

/-- The bodies written by the create and replace calls of a trace. -/
def writtenBodies : List StoreCall → List Ingress
  | [] => []
  | .create _ b :: rest => b :: writtenBodies rest
  | .replace _ _ b :: rest => b :: writtenBodies rest
  | .get _ _ :: rest => writtenBodies rest
  | .delete _ _ :: rest => writtenBodies rest

/-- The backend port of the first HTTP path of the first rule of an Ingress. -/
def firstBackendPort (b : Ingress) : Option ServiceBackendPort :=
  match b.spec.rules with
  | r :: _ =>
    match r.http.paths with
    | pa :: _ => some pa.backend.service.port
    | [] => none
  | [] => none

/-- A sample port entry with both a name and a number. -/
def portHttp : ServicePort := { name := some "http", port := some 80 }

/-- Sample event: annotation `/svc1` on service `ns1/svc1` with one named port. -/
def evUpsert : Event :=
  { ns := "ns1", name := "svc1"
    annotations := [("auto-ingress", "/svc1")]
    ports := some [portHttp]
    uid := some "uid-1", apiVersion := some "v1"
    old := none }

/-- Sample event: annotation `/x` but an empty port list. -/
def evNoPorts : Event :=
  { ns := "ns1", name := "svc1"
    annotations := [("auto-ingress", "/x")]
    ports := some []
    uid := none, apiVersion := none
    old := none }

/-- Sample event: annotation removed on update; the prior body carried `/svc1`. -/
def evRemoved : Event :=
  { ns := "ns1", name := "svc1"
    annotations := []
    ports := none
    uid := none, apiVersion := none
    old := some { annotations := [("auto-ingress", "/svc1")] } }

/-- Sample event: the annotation key is present with the empty-string value,
both currently and in the prior body. -/
def evEmptyAnnot : Event :=
  { ns := "ns1", name := "svc1"
    annotations := [("auto-ingress", "")]
    ports := some [portHttp]
    uid := none, apiVersion := none
    old := some { annotations := [("auto-ingress", "")] } }

/-- Sample event: annotation absent, no prior body, valid ports. -/
def evStale : Event :=
  { ns := "ns1", name := "svc1"
    annotations := []
    ports := some [portHttp]
    uid := none, apiVersion := none
    old := none }

/-- A store already holding the dependent Ingress of `ns1/svc1`. -/
def stalePre : Store :=
  [(("ns1", "auto-ingress-svc1-http"), desiredIngress evUpsert)]

/-- The faithful client over the empty store. -/
def apiIdeal : StoreOracle := storeOracle []

lemma truthyStr_some_false {p : String} : truthyStr (some p) = false ↔ p = "" := by
  simp only [truthyStr]
  split <;> simp_all

lemma truthyStr_some_true {p : String} : truthyStr (some p) = true ↔ p ≠ "" := by
  simp only [truthyStr]
  split <;> simp_all

lemma getKey_eraseKey_self (k : String × String) (st : Store) :
    getKey k (eraseKey k st) = none := by
  induction st with
  | nil => rfl
  | cons e rest ih =>
    simp only [eraseKey]
    split
    · exact ih
    · simp only [getKey]
      rw [if_neg (by assumption)]
      exact ih

lemma getKey_eraseKey_ne {k k' : String × String} (st : Store) (h : k' ≠ k) :
    getKey k' (eraseKey k st) = getKey k' st := by
  induction st with
  | nil => rfl
  | cons e rest ih =>
    simp only [eraseKey, getKey]
    by_cases he : e.1 = k
    · rw [if_pos he, ih, if_neg (by rw [he]; exact fun hh => h hh.symm)]
    · rw [if_neg he]
      simp only [getKey]
      by_cases he' : e.1 = k'
      · rw [if_pos he', if_pos he']
      · rw [if_neg he', if_neg he', ih]

lemma getKey_insertKey (k : String × String) (v : Ingress) (st : Store) :
    getKey k (insertKey k v st) = some v := by
  simp [insertKey, getKey]

lemma getKey_insertKey_ne {k k' : String × String} (v : Ingress) (st : Store)
    (h : k' ≠ k) : getKey k' (insertKey k v st) = getKey k' st := by
  simp only [insertKey, getKey]
  rw [if_neg (by simpa using fun hh => h hh.symm), getKey_eraseKey_ne st h]

lemma eraseKey_eraseKey (k : String × String) (st : Store) :
    eraseKey k (eraseKey k st) = eraseKey k st := by
  induction st with
  | nil => rfl
  | cons e rest ih =>
    simp only [eraseKey]
    split
    · exact ih
    · simp only [eraseKey]
      rw [if_neg (by assumption), ih]

lemma insertKey_insertKey (k : String × String) (v v' : Ingress) (st : Store) :
    insertKey k v (insertKey k v' st) = insertKey k v st := by
  simp [insertKey, eraseKey, eraseKey_eraseKey]

lemma getKey_eraseKey_isSome {k k' : String × String} (st : Store) :
    (getKey k' (eraseKey k st)).isSome =
      ((getKey k' st).isSome && !(k' = k : Bool)) := by
  by_cases h : k' = k
  · subst h
    simp [getKey_eraseKey_self]
  · simp [getKey_eraseKey_ne st h, h]

lemma desiredIngress_eq {ev : Event} {p : String} {p0 : ServicePort}
    {rest : List ServicePort}
    (hc : currentAnnot ev = some p) (hports : ev.ports = some (p0 :: rest)) :
    desiredIngress ev =
      ingressDef ev.name p ev.apiVersion ev.uid (backendPort p0.name p0.port) := by
  simp [desiredIngress, hc, hports]

lemma desiredIngress_name (ev : Event) :
    (desiredIngress ev).metadata.name = ingressName ev.name := rfl

lemma portCond_false {p0 : ServicePort}
    (hv : (truthyStr p0.name || truthyNat p0.port) = true) :
    (!truthyStr p0.name && !truthyNat p0.port) = false := by
  cases h1 : truthyStr p0.name <;> cases h2 : truthyNat p0.port <;> simp_all

/-- With annotation truthy and a valid first port, the handler runs the upsert
block on the freshly computed definition. -/
lemma manage_upsert {api : StoreOracle} {ev : Event} {p : String} {p0 : ServicePort}
    {rest : List ServicePort}
    (hc : currentAnnot ev = some p) (hp : p ≠ "")
    (hports : ev.ports = some (p0 :: rest))
    (hv : (truthyStr p0.name || truthyNat p0.port) = true) :
    manage_ingress api ev =
      upsertIngress api ev.ns (ingressName ev.name) (desiredIngress ev) := by
  rw [desiredIngress_eq hc hports]
  simp [manage_ingress, hc, hp, presentBranch, hports, portCond_false hv]

/-- With annotation value not truthy, the handler runs the absent branch. -/
lemma manage_absent {api : StoreOracle} {ev : Event}
    (hc : annotPresent ev = false) :
    manage_ingress api ev =
      absentBranch api ev.ns (ingressName ev.name) (priorAnnot ev) := by
  unfold annotPresent at hc
  unfold manage_ingress
  cases h : currentAnnot ev with
  | none => rfl
  | some p =>
    rw [h, truthyStr_some_false] at hc
    simp [hc]

/-- With annotation truthy and invalid ports, the handler warns once and stops. -/
lemma manage_invalid_ports {api : StoreOracle} {ev : Event}
    (hc : annotPresent ev = true) (hports : portsValid ev = false) :
    manage_ingress api ev =
      { outcome := .completed, calls := [], warnings := 1 } := by
  unfold annotPresent at hc
  cases h : currentAnnot ev with
  | none => rw [h] at hc; simp [truthyStr] at hc
  | some p =>
    rw [h, truthyStr_some_true] at hc
    unfold manage_ingress
    rw [h]
    simp only [if_neg hc]
    unfold presentBranch portsValid at *
    cases hpp : ev.ports with
    | none => rfl
    | some l =>
      cases l with
      | nil => rfl
      | cons p0 tl =>
        rw [hpp] at hports
        simp only at hports
        have : (!truthyStr p0.name && !truthyNat p0.port) = true := by
          cases h1 : truthyStr p0.name <;> cases h2 : truthyNat p0.port <;> simp_all
        simp [this]

/-- Against the faithful store client, the delete block always completes and
issues exactly the one delete call. -/
lemma deleteIngress_storeOracle (st : Store) (ns nm : String) :
    deleteIngress (storeOracle st) ns nm =
      { outcome := .completed, calls := [.delete ns nm], warnings := 0 } := by
  unfold deleteIngress storeOracle
  cases h : getKey (ns, nm) st <;> simp [h]

/-- Against the faithful store client, the upsert block always completes; it
replaces when the object exists and creates when it does not. -/
lemma upsertIngress_storeOracle (st : Store) (ns nm : String) (d : Ingress) :
    upsertIngress (storeOracle st) ns nm d =
      (match getKey (ns, nm) st with
       | some _ =>
         { outcome := .completed, calls := [.get ns nm, .replace ns nm d],
           warnings := 0 }
       | none =>
         { outcome := .completed, calls := [.get ns nm, .create ns d],
           warnings := 0 }) := by
  unfold upsertIngress storeOracle
  cases h : getKey (ns, nm) st <;> simp [h]

lemma annotPresent_iff {ev : Event} :
    annotPresent ev = true ↔ ∃ p, currentAnnot ev = some p ∧ p ≠ "" := by
  unfold annotPresent
  cases h : currentAnnot ev with
  | none => simp [truthyStr]
  | some p => simp [truthyStr_some_true]

lemma portsValid_iff {ev : Event} :
    portsValid ev = true ↔
      ∃ p0 rest, ev.ports = some (p0 :: rest) ∧
        (truthyStr p0.name || truthyNat p0.port) = true := by
  unfold portsValid
  cases h : ev.ports with
  | none => simp
  | some l =>
    cases l with
    | nil => simp
    | cons p0 tl => simp

/-- Upsert against a concrete store: the resulting store binds the dependent
key to the freshly computed definition, whatever was there before. -/
lemma reconcile_upsert_store {ev : Event} {p : String} {p0 : ServicePort}
    {rest : List ServicePort}
    (hc : currentAnnot ev = some p) (hp : p ≠ "")
    (hports : ev.ports = some (p0 :: rest))
    (hv : (truthyStr p0.name || truthyNat p0.port) = true) (st : Store) :
    (reconcile ev st).2 = insertKey (dependentKey ev) (desiredIngress ev) st := by
  unfold reconcile
  rw [manage_upsert hc hp hports hv, upsertIngress_storeOracle]
  cases h : getKey (ev.ns, ingressName ev.name) st with
  | none =>
    simp [List.foldl, applyCall, desiredIngress_name, dependentKey]
  | some i =>
    simp [List.foldl, applyCall, dependentKey]

/-- Upsert against a concrete store always completes. -/
lemma reconcile_upsert_outcome {ev : Event} {p : String} {p0 : ServicePort}
    {rest : List ServicePort}
    (hc : currentAnnot ev = some p) (hp : p ≠ "")
    (hports : ev.ports = some (p0 :: rest))
    (hv : (truthyStr p0.name || truthyNat p0.port) = true) (st : Store) :
    (reconcile ev st).1.outcome = .completed := by
  unfold reconcile
  rw [manage_upsert hc hp hports hv, upsertIngress_storeOracle]
  cases h : getKey (ev.ns, ingressName ev.name) st <;> simp

/-- Annotation absent and prior annotation absent: the run is a no-op. -/
lemma reconcile_noop {ev : Event}
    (hc : annotPresent ev = false) (hold : priorPresent ev = false) (st : Store) :
    reconcile ev st =
      ({ outcome := .completed, calls := [], warnings := 0 }, st) := by
  unfold reconcile
  rw [manage_absent hc]
  unfold priorPresent at hold
  unfold absentBranch
  simp [hold, List.foldl]

/-- Annotation absent, prior annotation present: the run deletes the dependent
key and completes. -/
lemma reconcile_delete {ev : Event}
    (hc : annotPresent ev = false) (hold : priorPresent ev = true) (st : Store) :
    reconcile ev st =
      ({ outcome := .completed, calls := [.delete ev.ns (ingressName ev.name)],
         warnings := 0 },
       eraseKey (dependentKey ev) st) := by
  unfold reconcile
  rw [manage_absent hc]
  unfold priorPresent at hold
  unfold absentBranch
  simp only [hold, if_true]
  rw [deleteIngress_storeOracle]
  simp [List.foldl, applyCall, dependentKey]

/-- Annotation present but ports invalid: the run warns and leaves the store
unchanged. -/
lemma reconcile_invalid {ev : Event}
    (hc : annotPresent ev = true) (hports : portsValid ev = false) (st : Store) :
    reconcile ev st =
      ({ outcome := .completed, calls := [], warnings := 1 }, st) := by
  unfold reconcile
  rw [manage_invalid_ports hc hports]
  simp [List.foldl]

/-- C1 (amended): after one reconciliation of a state completes without a fatal
error, the dependent resource `auto-ingress-<name>-http` exists in the event's
namespace iff the annotation is present and non-empty and the ports are valid,
or it already existed before the event and the reconciler took a no-store-action
branch (annotation present with invalid ports, or annotation absent with prior
annotation absent) — in those branches a pre-existing dependent resource
remains. -/
theorem convergence_characterization (ev : Event) (st : Store)
    (_h : (reconcile ev st).1.outcome = .completed) :
    existsDependent (reconcile ev st).2 ev =
      ((annotPresent ev && portsValid ev) ||
       (existsDependent st ev && noActionBranch ev)) := by
  cases hc : annotPresent ev with
  | true =>
    cases hv : portsValid ev with
    | true =>
      obtain ⟨p, hcp, hp⟩ := annotPresent_iff.mp hc
      obtain ⟨p0, rest, hports, hvv⟩ := portsValid_iff.mp hv
      rw [reconcile_upsert_store hcp hp hports hvv st]
      simp [existsDependent, getKey_insertKey, hc, hv]
    | false =>
      rw [reconcile_invalid hc hv st]
      simp [noActionBranch, hc, hv]
  | false =>
    cases hold : priorPresent ev with
    | true =>
      rw [reconcile_delete hc hold st]
      simp [existsDependent, getKey_eraseKey_self, noActionBranch, hc, hold]
    | false =>
      rw [reconcile_noop hc hold st]
      simp [noActionBranch, hc, hold]

/-- C1 witness: a concrete upsert run satisfying the amended characterization. -/
theorem convergence_characterization_witness :
    (reconcile evUpsert ([] : Store)).1.outcome = .completed ∧
    existsDependent (reconcile evUpsert ([] : Store)).2 evUpsert =
      ((annotPresent evUpsert && portsValid evUpsert) ||
       (existsDependent ([] : Store) evUpsert && noActionBranch evUpsert)) :=
  ⟨by decide, convergence_characterization evUpsert ([] : Store) (by decide)⟩

/-- C1 counterexample: annotation absent, no prior annotation, yet a
pre-existing dependent resource remains after a completed reconciliation, so
existence does not equal (annotation present and ports valid). -/
theorem convergence_counterexample :
    (reconcile evStale stalePre).1.outcome = .completed ∧
    existsDependent (reconcile evStale stalePre).2 evStale = true ∧
    (annotPresent evStale && portsValid evStale) = false := by
  decide

/-- C2: with a non-empty annotation and a valid first port, reconciling twice
in a row yields the same store as reconciling once, and any positive number of
repetitions converges to the state after the first run. -/
theorem upsert_idempotent (ev : Event) (st : Store) (p : String)
    (p0 : ServicePort) (rest : List ServicePort)
    (hc : currentAnnot ev = some p) (hp : p ≠ "")
    (hports : ev.ports = some (p0 :: rest))
    (hv : (truthyStr p0.name || truthyNat p0.port) = true) :
    (reconcile ev (reconcile ev st).2).2 = (reconcile ev st).2 ∧
    ∀ n : Nat, reconcileN ev (n + 1) st = (reconcile ev st).2 := by
  have hstep : ∀ s : Store,
      (reconcile ev s).2 = insertKey (dependentKey ev) (desiredIngress ev) s :=
    fun s => reconcile_upsert_store hc hp hports hv s
  have h2 : (reconcile ev (reconcile ev st).2).2 = (reconcile ev st).2 := by
    rw [hstep, hstep, insertKey_insertKey]
  have hfix : ∀ n : Nat,
      reconcileN ev n (reconcile ev st).2 = (reconcile ev st).2 := by
    intro n
    induction n with
    | zero => rfl
    | succ m ih =>
      show reconcileN ev m (reconcile ev (reconcile ev st).2).2 = _
      rw [h2]
      exact ih
  exact ⟨h2, fun n => hfix n⟩

/-- C2 witness: a concrete double reconciliation is idempotent. -/
theorem upsert_idempotent_witness :
    currentAnnot evUpsert = some "/svc1" ∧
    evUpsert.ports = some (portHttp :: []) ∧
    (truthyStr portHttp.name || truthyNat portHttp.port) = true ∧
    (reconcile evUpsert (reconcile evUpsert ([] : Store)).2).2 =
      (reconcile evUpsert ([] : Store)).2 :=
  ⟨by decide, by decide, by decide,
   (upsert_idempotent evUpsert ([] : Store) "/svc1" portHttp []
      (by decide) (by decide) (by decide) (by decide)).1⟩

/-- C3: annotation present and non-empty, but no ports or a first port with
neither name nor number: the handler warns once, completes without raising, and
issues no store call of any kind. -/
theorem invalid_ports_no_mutation (api : StoreOracle) (ev : Event)
    (hc : annotPresent ev = true) (hports : portsValid ev = false) :
    manage_ingress api ev =
      { outcome := .completed, calls := [], warnings := 1 } :=
  manage_invalid_ports hc hports

/-- C3 witness: a concrete event with an empty port list. -/
theorem invalid_ports_no_mutation_witness :
    annotPresent evNoPorts = true ∧ portsValid evNoPorts = false ∧
    manage_ingress apiIdeal evNoPorts =
      { outcome := .completed, calls := [], warnings := 1 } :=
  ⟨by decide, by decide,
   invalid_ports_no_mutation apiIdeal evNoPorts (by decide) (by decide)⟩

/-- C4: prior annotation present and non-empty, current annotation absent: the
handler issues exactly one store call, a delete of the deterministic dependent
name in the event's namespace — in particular no create and no replace. -/
theorem removal_single_delete (api : StoreOracle) (ev : Event)
    (hc : annotPresent ev = false) (hold : priorPresent ev = true) :
    (manage_ingress api ev).calls =
      [.delete ev.ns (ingressName ev.name)] := by
  rw [manage_absent hc]
  unfold priorPresent at hold
  unfold absentBranch
  simp only [hold, if_true]
  unfold deleteIngress
  cases h : api.delete ev.ns (ingressName ev.name) with
  | ok _ => rfl
  | error st =>
    by_cases h4 : st = 404 <;> simp [h4]

/-- C4 witness: annotation removed with prior value `/svc1`: exactly one delete
of `auto-ingress-svc1-http`. -/
theorem removal_single_delete_witness :
    annotPresent evRemoved = false ∧ priorPresent evRemoved = true ∧
    (manage_ingress apiIdeal evRemoved).calls =
      [.delete evRemoved.ns (ingressName evRemoved.name)] :=
  ⟨by decide, by decide,
   removal_single_delete apiIdeal evRemoved (by decide) (by decide)⟩

/-- C5: in the upsert path the handler first looks the dependent up by name; a
404 lookup leads to exactly one create, a successful lookup to exactly one
replace carrying the freshly computed definition, and any other lookup failure
is re-raised with no create or replace issued. -/
theorem upsert_lookup_branching (api : StoreOracle) (ev : Event) (p : String)
    (p0 : ServicePort) (rest : List ServicePort)
    (hc : currentAnnot ev = some p) (hp : p ≠ "")
    (hports : ev.ports = some (p0 :: rest))
    (hv : (truthyStr p0.name || truthyNat p0.port) = true) :
    (api.get ev.ns (ingressName ev.name) = .error 404 →
      (manage_ingress api ev).calls =
        [.get ev.ns (ingressName ev.name),
         .create ev.ns (desiredIngress ev)]) ∧
    (∀ i, api.get ev.ns (ingressName ev.name) = .ok i →
      (manage_ingress api ev).calls =
        [.get ev.ns (ingressName ev.name),
         .replace ev.ns (ingressName ev.name) (desiredIngress ev)]) ∧
    (∀ s, s ≠ 404 → api.get ev.ns (ingressName ev.name) = .error s →
      manage_ingress api ev =
        { outcome := .raised s, calls := [.get ev.ns (ingressName ev.name)],
          warnings := 0 }) := by
  rw [manage_upsert hc hp hports hv]
  unfold upsertIngress
  refine ⟨?_, ?_, ?_⟩
  · intro hget
    rw [hget]
    simp only [if_pos rfl]
    cases hcr : api.create ev.ns (desiredIngress ev) <;> simp
  · intro i hget
    rw [hget]
    cases hr : api.replace ev.ns (ingressName ev.name) (desiredIngress ev) <;> simp
  · intro s hs hget
    rw [hget]
    simp [hs]

/-- C5 witness: against an empty store the lookup returns 404 and the run
issues exactly a get followed by a create of the computed definition. -/
theorem upsert_lookup_branching_witness :
    apiIdeal.get evUpsert.ns (ingressName evUpsert.name) = .error 404 ∧
    (manage_ingress apiIdeal evUpsert).calls =
      [.get evUpsert.ns (ingressName evUpsert.name),
       .create evUpsert.ns (desiredIngress evUpsert)] :=
  ⟨rfl,
   (upsert_lookup_branching apiIdeal evUpsert "/svc1" portHttp []
      (by decide) (by decide) (by decide) (by decide)).1 rfl⟩

/-- C6: in the delete path a 404 from the store's delete call is treated as
success (the run completes without raising), while any other delete failure is
re-raised with that status. -/
theorem delete_notfound_idempotent (api : StoreOracle) (ev : Event)
    (hc : annotPresent ev = false) (hold : priorPresent ev = true) :
    (api.delete ev.ns (ingressName ev.name) = .error 404 →
      (manage_ingress api ev).outcome = .completed) ∧
    (∀ u, api.delete ev.ns (ingressName ev.name) = .ok u →
      (manage_ingress api ev).outcome = .completed) ∧
    (∀ s, s ≠ 404 → api.delete ev.ns (ingressName ev.name) = .error s →
      (manage_ingress api ev).outcome = .raised s) := by
  rw [manage_absent hc]
  unfold priorPresent at hold
  unfold absentBranch
  simp only [hold, if_true]
  unfold deleteIngress
  refine ⟨?_, ?_, ?_⟩
  · intro hdel
    rw [hdel]
    simp
  · intro u hdel
    rw [hdel]
  · intro s hs hdel
    rw [hdel]
    simp [hs]

/-- C6 witness: deleting against an empty store returns 404 and the run still
completes. -/
theorem delete_notfound_idempotent_witness :
    apiIdeal.delete evRemoved.ns (ingressName evRemoved.name) = .error 404 ∧
    (manage_ingress apiIdeal evRemoved).outcome = .completed :=
  ⟨rfl,
   (delete_notfound_idempotent apiIdeal evRemoved (by decide) (by decide)).1
     rfl⟩

/-- Every body written by the upsert block is the computed definition. -/
lemma writtenBodies_upsertIngress (api : StoreOracle) (ns nm : String)
    (d : Ingress) :
    ∀ b ∈ writtenBodies (upsertIngress api ns nm d).calls, b = d := by
  unfold upsertIngress
  cases h : api.get ns nm with
  | ok i =>
    cases hr : api.replace ns nm d <;> simp [writtenBodies]
  | error st =>
    by_cases h4 : st = 404
    · subst h4
      simp only [if_pos rfl]
      cases hcr : api.create ns d <;> simp [writtenBodies]
    · simp [h4, writtenBodies]

/-- C7: every definition the handler writes is field-exact: deterministic name,
exactly the fixed Traefik entrypoint annotation, exactly one owner reference
built from the watched service's apiVersion, name and uid with controller and
blockOwnerDeletion set, and exactly one rule with one HTTP path whose path is
the annotation value, pathType Prefix and backend service the watched name. -/
theorem written_ingress_fields (api : StoreOracle) (ev : Event) (p : String)
    (p0 : ServicePort) (rest : List ServicePort)
    (hc : currentAnnot ev = some p) (hp : p ≠ "")
    (hports : ev.ports = some (p0 :: rest))
    (hv : (truthyStr p0.name || truthyNat p0.port) = true) :
    ∀ b ∈ writtenBodies (manage_ingress api ev).calls,
      b.metadata.name = ingressName ev.name ∧
      b.metadata.annotations =
        [("traefik.ingress.kubernetes.io/router.entrypoints", "web")] ∧
      b.metadata.ownerReferences =
        [{ apiVersion := ev.apiVersion, kind := "Service", name := ev.name,
           uid := ev.uid, controller := true, blockOwnerDeletion := true }] ∧
      b.spec.rules =
        [{ http :=
            { paths :=
                [{ path := p, pathType := "Prefix",
                   backend :=
                     { service := { name := ev.name,
                                    port := backendPort p0.name p0.port } } }] } }] := by
  rw [manage_upsert hc hp hports hv]
  intro b hb
  have hbd := writtenBodies_upsertIngress api ev.ns (ingressName ev.name)
    (desiredIngress ev) b hb
  subst hbd
  rw [desiredIngress_eq hc hports]
  simp [ingressDef]

/-- C7 witness: the concrete written definition is field-exact. -/
theorem written_ingress_fields_witness :
    (desiredIngress evUpsert).metadata.name = ingressName evUpsert.name ∧
    (desiredIngress evUpsert).metadata.annotations =
      [("traefik.ingress.kubernetes.io/router.entrypoints", "web")] ∧
    (desiredIngress evUpsert).metadata.ownerReferences =
      [{ apiVersion := evUpsert.apiVersion, kind := "Service",
         name := evUpsert.name, uid := evUpsert.uid, controller := true,
         blockOwnerDeletion := true }] ∧
    (desiredIngress evUpsert).spec.rules =
      [{ http :=
          { paths :=
              [{ path := "/svc1", pathType := "Prefix",
                 backend :=
                   { service := { name := evUpsert.name,
                                  port := backendPort portHttp.name
                                            portHttp.port } } }] } }] :=
  written_ingress_fields apiIdeal evUpsert "/svc1" portHttp []
    (by decide) (by decide) (by decide) (by decide)
    (desiredIngress evUpsert) (by decide)

/-- C8: the handler builds the backend from exactly the first port entry,
using its name when the name is truthy and its number otherwise, and the run is
entirely independent of the remaining port entries. -/
theorem first_port_preference (api : StoreOracle) (ev : Event) (p : String)
    (p0 : ServicePort) (rest : List ServicePort)
    (hc : currentAnnot ev = some p) (hp : p ≠ "")
    (hports : ev.ports = some (p0 :: rest))
    (hv : (truthyStr p0.name || truthyNat p0.port) = true) :
    (∀ b ∈ writtenBodies (manage_ingress api ev).calls,
      (truthyStr p0.name = true →
        firstBackendPort b = some { name := p0.name, number := none }) ∧
      (truthyStr p0.name = false →
        firstBackendPort b = some { name := none, number := p0.port })) ∧
    (∀ rest' : List ServicePort,
      manage_ingress api { ev with ports := some (p0 :: rest') } =
        manage_ingress api ev) := by
  constructor
  · rw [manage_upsert hc hp hports hv]
    intro b hb
    have hbd := writtenBodies_upsertIngress api ev.ns (ingressName ev.name)
      (desiredIngress ev) b hb
    subst hbd
    rw [desiredIngress_eq hc hports]
    constructor
    · intro hn
      simp [ingressDef, firstBackendPort, backendPort, hn]
    · intro hn
      simp [ingressDef, firstBackendPort, backendPort, hn]
  · intro rest'
    have hc' : currentAnnot { ev with ports := some (p0 :: rest') } = some p := hc
    have hports' : ({ ev with ports := some (p0 :: rest') } : Event).ports =
        some (p0 :: rest') := rfl
    rw [manage_upsert hc' hp hports' hv, manage_upsert hc hp hports hv]
    rw [desiredIngress_eq hc' hports', desiredIngress_eq hc hports]

/-- C8 witness: with a named first port, the written backend carries the name
and no number. -/
theorem first_port_preference_witness :
    truthyStr portHttp.name = true ∧
    firstBackendPort (desiredIngress evUpsert) =
      some { name := portHttp.name, number := none } :=
  ⟨by decide,
   ((first_port_preference apiIdeal evUpsert "/svc1" portHttp []
       (by decide) (by decide) (by decide) (by decide)).1
     (desiredIngress evUpsert) (by decide)).1 (by decide)⟩

/-- The upsert block issues at most one mutating call. -/
lemma mutations_upsertIngress (api : StoreOracle) (ns nm : String)
    (d : Ingress) :
    ((upsertIngress api ns nm d).calls.filter isMutation).length ≤ 1 := by
  unfold upsertIngress
  cases h : api.get ns nm with
  | ok i =>
    cases hr : api.replace ns nm d <;> simp [isMutation]
  | error st =>
    by_cases h4 : st = 404
    · subst h4
      simp only [if_pos rfl]
      cases hcr : api.create ns d <;> simp [isMutation]
    · simp [h4, isMutation]

/-- The absent branch issues at most one mutating call. -/
lemma mutations_absentBranch (api : StoreOracle) (ns nm : String)
    (old_path : Option String) :
    ((absentBranch api ns nm old_path).calls.filter isMutation).length ≤ 1 := by
  unfold absentBranch
  by_cases hold : truthyStr old_path = true
  · simp only [hold, if_true]
    unfold deleteIngress
    cases h : api.delete ns nm with
    | ok _ => simp [isMutation]
    | error st => by_cases h4 : st = 404 <;> simp [h4, isMutation]
  · simp only [Bool.not_eq_true] at hold
    simp [hold]

/-- C9: any single handler invocation, for any inputs and any store responses,
issues at most one mutating store call (create, replace or delete). -/
theorem at_most_one_mutation (api : StoreOracle) (ev : Event) :
    ((manage_ingress api ev).calls.filter isMutation).length ≤ 1 := by
  unfold manage_ingress
  cases h : currentAnnot ev with
  | none => exact mutations_absentBranch api ev.ns (ingressName ev.name) _
  | some p =>
    by_cases hp : p = ""
    · simp only [if_pos hp]
      exact mutations_absentBranch api ev.ns (ingressName ev.name) _
    · simp only [if_neg hp]
      unfold presentBranch
      cases hports : ev.ports with
      | none => simp
      | some l =>
        cases l with
        | nil => simp
        | cons p0 tl =>
          by_cases hcond : (!truthyStr p0.name && !truthyNat p0.port) = true
          · simp [hcond]
          · simp only [Bool.not_eq_true] at hcond
            simp only [hcond, Bool.false_eq_true, if_false]
            exact mutations_upsertIngress api ev.ns (ingressName ev.name) _

/-- C10: an annotation key present with the empty-string value is treated as
absent: the handler takes the annotation-absent branch and attempts no upsert;
and a prior annotation whose value was the empty string does not count as
previously present, so no delete is issued either. -/
theorem empty_annot_treated_absent (api : StoreOracle) (ev : Event) :
    (currentAnnot ev = some "" →
      manage_ingress api ev =
        absentBranch api ev.ns (ingressName ev.name) (priorAnnot ev)) ∧
    (annotPresent ev = false → priorAnnot ev = some "" →
      manage_ingress api ev =
        { outcome := .completed, calls := [], warnings := 0 }) := by
  constructor
  · intro hc
    unfold manage_ingress
    rw [hc]
    simp
  · intro hc hold
    rw [manage_absent hc]
    unfold absentBranch
    rw [hold]
    simp [truthyStr]

/-- C10 witness: a concrete event whose annotation value is the empty string,
current and prior: the absent branch is taken and no store call is issued. -/
theorem empty_annot_treated_absent_witness :
    currentAnnot evEmptyAnnot = some "" ∧
    manage_ingress apiIdeal evEmptyAnnot =
      absentBranch apiIdeal evEmptyAnnot.ns (ingressName evEmptyAnnot.name)
        (priorAnnot evEmptyAnnot) ∧
    annotPresent evEmptyAnnot = false ∧
    priorAnnot evEmptyAnnot = some "" ∧
    manage_ingress apiIdeal evEmptyAnnot =
      { outcome := .completed, calls := [], warnings := 0 } :=
  ⟨by decide,
   (empty_annot_treated_absent apiIdeal evEmptyAnnot).1 (by decide),
   by decide, by decide,
   (empty_annot_treated_absent apiIdeal evEmptyAnnot).2 (by decide) (by decide)⟩

end AutoIngress
